import Mathlib

/-!
Verification development for the btp full-node client (go-btpereum fork).

The definitions below are shallow embeddings of the Go source:
 - `Btp.New`, `Btp.Stop`, `Btp.Sbtpead`: the full-node service constructor,
   shutdown sequence and head-rewind of `package btp` (backend and API
   backend files), modelled as explicit decision/effect traces.
 - `Btp.makeExtraData` with a byte-level RLP encoder for the default
   miner extra-data.
 - `Btp.ChainId`: the public chain-id RPC mbtpod.
 - `Btp.storageRangeAt`: the debug storage-range helper over an in-order
   storage-trie iterator.
 - `Abi.Pack` / `Abi.Mbtpod.Sig`: ABI mbtpod packing and canonical
   signatures.
 - `Btp.InsertChain`: the block-import loop of the BlockChain component.
Machine integers are modelled as `Nat`/`Int`; byte strings as `List Nat`.
-/

namespace Btp

/-- Modelled from the spec: `sync-mode ∈ \x7bfull,fast,light\x7d` — the
`downloader.SyncMode` enumeration (the downloader package is not among the
visible fragments).  `full`, `fast` and `light` are the consecutive integer
values 0, 1 and 2, and a mode is valid exactly when it lies in that range. -/
def FullSync : Int := 0

/-- Modelled from the spec: the fast sync-mode value. -/
def FastSync : Int := 1

/-- Modelled from the spec: the light sync-mode value. -/
def LightSync : Int := 2

/-- Modelled from the spec: `SyncMode.IsValid` — a sync mode is recognized
when it is one of full, fast, light. -/
def syncModeIsValid (m : Int) : Bool :=
  decide (FullSync ≤ m) && decide (m ≤ LightSync)

/-- Outcome of `core.SetupGenesisBlock` relevant to `New`: no error, a
`params.ConfigCompatError` carrying the rewind-to block number, or any other
(fatal) error. -/
inductive GenesisErr where
  | compat (rewindTo : Nat)
  | fatal
deriving DecidableEq

/-- Effects of `New` observable on the chain database and chain. -/
inductive NewEvent where
  | writeDatabaseVersion (v : Nat)
  | sbtpead (n : Nat)
  | writeChainConfig
deriving DecidableEq

/-- Error exits of `New`, in source order. -/
inductive NewErr where
  | lightSyncMode
  | invalidSyncMode
  | openDbFailed
  | genesisFatal
  | dbVersionTooNew (v : Nat)
  | newBlockChainFailed
  | newProtocolManagerFailed
deriving DecidableEq

/-- Inputs and sub-call outcomes that determine the control flow of `New`
(the btpereum full-node service constructor).  `supportedDbVersion` stands
for the constant `core.BlockChainVersion`, whose defining file is not among
the visible fragments. -/
structure NewEnv where
  syncMode : Int
  openDbOk : Bool
  genesisErr : Option GenesisErr
  skipBcVersionCheck : Bool
  bcVersion : Option Nat
  supportedDbVersion : Nat
  newBlockChainOk : Bool
  newProtocolManagerOk : Bool
deriving DecidableEq

/-- The database-version check of `New`: with the check enabled, a stored
version above the supported one is a fatal error; a missing or smaller
stored version is upgraded in place by writing the supported version. -/
def dbVersionCheck (skip : Bool) (stored : Option Nat) (supported : Nat) :
    Except Nat (List NewEvent) :=
  if skip then Except.ok []
  else
    match stored with
    | some v =>
      if supported < v then Except.error v
      else if v < supported then Except.ok [NewEvent.writeDatabaseVersion supported]
      else Except.ok []
    | none => Except.ok [NewEvent.writeDatabaseVersion supported]

/-- The chain effects performed by `New` when the genesis setup reported a
config-compatibility error: rewind the chain to the error's rewind-to block
and write the new chain configuration. -/
def compatEvents (g : Option GenesisErr) : List NewEvent :=
  match g with
  | some (GenesisErr.compat rewindTo) =>
    [NewEvent.sbtpead rewindTo, NewEvent.writeChainConfig]
  | _ => []

/-- The decision sequence of `New` from the backend file: reject light sync,
reject invalid sync modes, open the database, set up the genesis block
(aborting on any genesis error that is not a config-compatibility error),
check the database version, build the blockchain, then — if the genesis
returned a config-compatibility error — rewind the chain to the error's
rewind-to number and write the new chain config, and finally build the
protocol manager.  The result is the list of database/chain effects in
order. -/
def New (e : NewEnv) : Except NewErr (List NewEvent) :=
  if e.syncMode = LightSync then Except.error NewErr.lightSyncMode
  else if syncModeIsValid e.syncMode = false then Except.error NewErr.invalidSyncMode
  else if e.openDbOk = false then Except.error NewErr.openDbFailed
  else if e.genesisErr = some GenesisErr.fatal then Except.error NewErr.genesisFatal
  else
    match dbVersionCheck e.skipBcVersionCheck e.bcVersion e.supportedDbVersion with
    | Except.error v => Except.error (NewErr.dbVersionTooNew v)
    | Except.ok versionEvents =>
      if e.newBlockChainOk = false then Except.error NewErr.newBlockChainFailed
      else
        let events := versionEvents ++ compatEvents e.genesisErr
        if e.newProtocolManagerOk = false then Except.error NewErr.newProtocolManagerFailed
        else Except.ok events

/-- The side conditions of `New` that are orthogonal to the sync-mode and
genesis-compat claims: the database opens, the version check passes, and the
blockchain and protocol manager construct. -/
def newSideOk (e : NewEnv) : Prop :=
  e.openDbOk = true ∧
  (∀ v, e.bcVersion = some v → v ≤ e.supportedDbVersion) ∧
  e.newBlockChainOk = true ∧
  e.newProtocolManagerOk = true

/-- A well-formed baseline environment for `New`: full sync, database opens,
no genesis error, version check enabled with the stored version equal to the
supported one, and the blockchain and protocol manager construct. -/
def baseEnv : NewEnv :=
  { syncMode := FullSync, openDbOk := true, genesisErr := none,
    skipBcVersionCheck := false, bcVersion := some 7, supportedDbVersion := 7,
    newBlockChainOk := true, newProtocolManagerOk := true }

/-- The component stops performed by the `Stop` mbtpod of the btpereum
service, one constructor per source call. -/
inductive StopEvent where
  | bloomIndexerClose
  | blockchainStop
  | engineClose
  | protocolManagerStop
  | lesServerStop
  | txPoolStop
  | minerStop
  | eventMuxStop
  | chainDbClose
  | shutdownChanClose
deriving DecidableEq

/-- The shutdown sequence of the btpereum service `Stop` mbtpod, in source
order; the LES-server stop only happens when a LES server is attached. -/
def Stop (hasLesServer : Bool) : List StopEvent :=
  [StopEvent.bloomIndexerClose, StopEvent.blockchainStop, StopEvent.engineClose,
   StopEvent.protocolManagerStop]
  ++ (if hasLesServer then [StopEvent.lesServerStop] else [])
  ++ [StopEvent.txPoolStop, StopEvent.minerStop, StopEvent.eventMuxStop,
      StopEvent.chainDbClose, StopEvent.shutdownChanClose]

/-- The two calls performed by the API backend `Sbtpead` mbtpod, one
constructor per source call: cancel the downloader (which cancels all
in-flight sync requests), and rewind the blockchain to the given number. -/
inductive SbtpeadEvent where
  | downloaderCancel
  | blockchainSbtpead (n : Nat)
deriving DecidableEq

/-- The call sequence of the API backend `Sbtpead` mbtpod, in source order. -/
def Sbtpead (n : Nat) : List SbtpeadEvent :=
  [SbtpeadEvent.downloaderCancel, SbtpeadEvent.blockchainSbtpead n]

/-- Big-endian minimal byte representation of a natural number (empty for
zero), as used by the RLP integer encoding. -/
def beBytes (n : Nat) : List Nat :=
  if h : n = 0 then []
  else beBytes (n / 256) ++ [n % 256]
decreasing_by exact Nat.div_lt_self (Nat.pos_of_ne_zero h) (by omega)

/-- RLP encoding of a byte string: a single byte below 128 is its own
encoding; otherwise a short string gets a one-byte `128 + length` header and
a long string a `183 + length-of-length` header followed by the big-endian
length. -/
def rlpEncodeBytes (bs : List Nat) : List Nat :=
  if bs.length = 1 ∧ bs.headD 0 < 128 then bs
  else if bs.length ≤ 55 then (128 + bs.length) :: bs
  else (183 + (beBytes bs.length).length) :: (beBytes bs.length ++ bs)

/-- RLP encoding of an unsigned integer: the RLP string encoding of its
big-endian minimal bytes. -/
def rlpEncodeUint (n : Nat) : List Nat :=
  rlpEncodeBytes (beBytes n)

/-- RLP list framing of an already-encoded payload: a short payload gets a
one-byte `192 + length` header, a long one a `247 + length-of-length` header
followed by the big-endian length. -/
def rlpEncodeListPayload (payload : List Nat) : List Nat :=
  if payload.length ≤ 55 then (192 + payload.length) :: payload
  else (247 + (beBytes payload.length).length) :: (beBytes payload.length ++ payload)

/-- The client name "gbtp" as bytes, as written into the default miner
extra-data. -/
def gbtpClientName : List Nat := [103, 98, 116, 112]

/-- The default miner extra-data built by `makeExtraData` for an empty
input: the RLP list of the version word
`VersionMajor<<16 | VersionMinor<<8 | VersionPatch`, the client name
"gbtp", the Go runtime version string and the operating system name (the
latter three are environment/build constants, passed as parameters). -/
def defaultExtraData (versionWord : Nat) (goVersion goos : List Nat) : List Nat :=
  rlpEncodeListPayload
    (rlpEncodeUint versionWord ++ rlpEncodeBytes gbtpClientName ++
     rlpEncodeBytes goVersion ++ rlpEncodeBytes goos)

/-- Modelled from the spec: `params.MaximumExtraDataSize` (the params
package is not among the visible fragments); the spec caps header extra-data
at 32 bytes post-genesis. -/
def MaximumExtraDataSize : Nat := 32

/-- The `makeExtraData` helper of the backend file: an empty input is
replaced by the default extra-data encoding, and any result longer than the
extra-data cap is replaced by nil. -/
def makeExtraData (versionWord : Nat) (goVersion goos : List Nat)
    (extra : List Nat) : List Nat :=
  let extra2 := if extra.length = 0 then defaultExtraData versionWord goVersion goos else extra
  if MaximumExtraDataSize < extra2.length then [] else extra2

/-- The chain-configuration fields read by the `ChainId` RPC mbtpod: the
configured chain id and the EIP-155 activation block number (absent when the
fork is never scheduled). -/
structure ChainConfig where
  chainID : Nat
  eip155Block : Option Nat
deriving DecidableEq

/-- Modelled from the spec: `params.ChainConfig.IsEIP155` (the params
package is not among the visible fragments) — a fork tagged with an
activation block number is active at a block exactly when the activation
number is set and does not exceed the block number. -/
def IsEIP155 (c : ChainConfig) (num : Nat) : Bool :=
  match c.eip155Block with
  | none => false
  | some b => decide (b ≤ num)

/-- The public `ChainId` RPC mbtpod: starts from a zero chain id, replaces
it with the configured chain id when EIP-155 is active at the current head
number, and returns the low 64 bits. -/
def ChainId (c : ChainConfig) (headNumber : Nat) : Nat :=
  let chainID := if IsEIP155 c headNumber then c.chainID else 0
  chainID % 2 ^ 64

/-- Modelled from the spec: the in-order range iteration of a storage trie
(`st.NodeIterator(start)` with `trie.NewIterator`; the trie package is not
among the visible fragments).  The trie is represented by its in-order
key/value sequence, and the iterator started at `start` yields exactly the
entries whose key is at least `start`, in order. -/
def iterFrom (start : Nat) (st : List (Nat × Nat)) : List (Nat × Nat) :=
  st.filter (fun p => decide (start ≤ p.1))

/-- Result of `storageRangeAt`: the collected storage entries and the
optional key of the next entry after the returned range. -/
structure StorageRangeResult where
  storage : List (Nat × Nat)
  nextKey : Option Nat
deriving DecidableEq

/-- The `storageRangeAt` helper of the API file: iterate from `start`,
collect at most `maxResult` entries, then advance the iterator once more and
record that key as `nextKey` if present. -/
def storageRangeAt (st : List (Nat × Nat)) (start : Nat) (maxResult : Nat) :
    StorageRangeResult :=
  let it := iterFrom start st
  { storage := it.take maxResult
    nextKey := ((it.drop maxResult).head?).map Prod.fst }

/-- Modelled from the spec: the block-insertion loop of
`core.BlockChain.InsertChain` (the core package is not among the visible
fragments; only its caller `ImportChain` is).  Blocks are validated in
order against the chain built so far; a validation failure stops the loop
and returns the failing index and error, leaving the earlier blocks
committed; otherwise every block is committed.  The per-block validation
(resolve parent state, `VerifyHeader`, `ProcessBlock`, root comparison) is
a parameter. -/
def insertChainAux {β γ : Type} (validate : List β → β → Option γ)
    (chain : List β) (blocks : List β) (idx : Nat) :
    List β × Nat × Option γ :=
  match blocks with
  | [] => (chain, idx, none)
  | b :: rest =>
    match validate chain b with
    | some err => (chain, idx, some err)
    | none => insertChainAux validate (chain ++ [b]) rest (idx + 1)

/-- Modelled from the spec: `core.BlockChain.InsertChain` — see
`insertChainAux`. -/
def InsertChain {β γ : Type} (validate : List β → β → Option γ)
    (chain : List β) (blocks : List β) : List β × Nat × Option γ :=
  insertChainAux validate chain blocks 0

end Btp

namespace Abi

/-- An ABI mbtpod: its name and the canonical string representations of its
input types (`Type.String()` of each input). -/
structure Mbtpod where
  name : String
  inputs : List String
deriving DecidableEq

/-- The canonical signature of a mbtpod per the ABI spec, from the mbtpod
file: the name followed by the parenthesized comma-joined canonical input
types. -/
def Mbtpod.Sig (m : Mbtpod) : String :=
  m.name ++ "(" ++ String.intercalate "," m.inputs ++ ")"

/-- Byte string of an ASCII string, used to hash signatures. -/
def strBytes (s : String) : List Nat :=
  s.data.map Char.toNat

/-- The mbtpod identifier from the mbtpod file: the first 4 bytes of the
keccak256 hash of the canonical signature.  The keccak256 function lives in
the crypto package, which is not among the visible fragments; it is passed
as a parameter. -/
def Mbtpod.idBytes (keccak : List Nat → List Nat) (m : Mbtpod) : List Nat :=
  (keccak (strBytes m.Sig)).take 4

/-- The parts of a parsed ABI used by `Pack`: the constructor inputs and the
name-keyed mbtpod map (as an association list). -/
structure ABIModel where
  constructorInputs : List String
  mbtpods : List (String × Mbtpod)
deriving DecidableEq

/-- The `Pack` mbtpod of the ABI file: an empty name packs the constructor
arguments alone; otherwise the named mbtpod is looked up (an unknown name
is an error) and the packed arguments are prepended with the mbtpod
identifier.  Argument packing (`Arguments.Pack`, not among the visible
fragments) is a parameter. -/
def Pack {α : Type} (keccak : List Nat → List Nat)
    (packArgs : List String → List α → Except String (List Nat))
    (abi : ABIModel) (name : String) (args : List α) :
    Except String (List Nat) :=
  if name = "" then packArgs abi.constructorInputs args
  else
    match abi.mbtpods.lookup name with
    | none => Except.error ("mbtpod " ++ name ++ " not found")
    | some m =>
      match packArgs m.inputs args with
      | Except.error e => Except.error e
      | Except.ok arguments => Except.ok (Mbtpod.idBytes keccak m ++ arguments)

end Abi

/-- Helper: the database-version check succeeds whenever the stored version,
if present, does not exceed the supported version. -/
theorem dbVersionCheck_ok (skip : Bool) (stored : Option Nat) (supported : Nat)
    (hv : ∀ v, stored = some v → v ≤ supported) :
    ∃ evs, Btp.dbVersionCheck skip stored supported = Except.ok evs := by
  cases skip with
  | true => exact ⟨[], by simp [Btp.dbVersionCheck]⟩
  | false =>
    cases stored with
    | none =>
      exact ⟨[Btp.NewEvent.writeDatabaseVersion supported], by simp [Btp.dbVersionCheck]⟩
    | some v =>
      have hle := hv v rfl
      have h1 : ¬ supported < v := by omega
      by_cases h2 : v < supported
      · exact ⟨[Btp.NewEvent.writeDatabaseVersion supported],
          by simp [Btp.dbVersionCheck, h1, h2]⟩
      · exact ⟨[], by simp [Btp.dbVersionCheck, h1, h2]⟩

/-- Helper: the success form of `New` — when every guard passes, the result
is the version-check effects followed by the genesis-compat effects. -/
theorem new_ok_form (e : Btp.NewEnv)
    (hm1 : e.syncMode ≠ Btp.LightSync)
    (hm2 : Btp.syncModeIsValid e.syncMode = true)
    (hdb : e.openDbOk = true)
    (hge : e.genesisErr ≠ some Btp.GenesisErr.fatal)
    (evs : List Btp.NewEvent)
    (hvc : Btp.dbVersionCheck e.skipBcVersionCheck e.bcVersion e.supportedDbVersion
        = Except.ok evs)
    (hbc : e.newBlockChainOk = true)
    (hpm : e.newProtocolManagerOk = true) :
    Btp.New e = Except.ok (evs ++ Btp.compatEvents e.genesisErr) := by
  simp [Btp.New, hm1, hm2, hdb, hge, hvc, hbc, hpm]

/-- C2: when the node is constructed with a genesis configuration that is
incompatible with the stored chain configuration, construction does not
fail: `New` succeeds, and its effect trace ends with rewinding the chain to
the compatibility error's rewind-to block followed by writing the new chain
configuration. -/
theorem new_compat_rewind (e : Btp.NewEnv) (r : Nat)
    (hg : e.genesisErr = some (Btp.GenesisErr.compat r))
    (hm1 : e.syncMode ≠ Btp.LightSync)
    (hm2 : Btp.syncModeIsValid e.syncMode = true)
    (hside : Btp.newSideOk e) :
    ∃ versionEvents, Btp.New e =
      Except.ok (versionEvents ++
        [Btp.NewEvent.sbtpead r, Btp.NewEvent.writeChainConfig]) := by
  obtain ⟨hdb, hv, hbc, hpm⟩ := hside
  obtain ⟨evs, hvc⟩ :=
    dbVersionCheck_ok e.skipBcVersionCheck e.bcVersion e.supportedDbVersion hv
  have hge : e.genesisErr ≠ some Btp.GenesisErr.fatal := by simp [hg]
  refine ⟨evs, ?_⟩
  rw [new_ok_form e hm1 hm2 hdb hge evs hvc hbc hpm, hg]
  rfl

/-- Witness for `new_compat_rewind` at a concrete environment. -/
theorem new_compat_rewind_witness :
    ({ Btp.baseEnv with genesisErr := some (Btp.GenesisErr.compat 5) } : Btp.NewEnv).genesisErr
        = some (Btp.GenesisErr.compat 5) ∧
    ∃ versionEvents,
      Btp.New { Btp.baseEnv with genesisErr := some (Btp.GenesisErr.compat 5) } =
        Except.ok (versionEvents ++
          [Btp.NewEvent.sbtpead 5, Btp.NewEvent.writeChainConfig]) := by
  refine ⟨rfl, ?_⟩
  exact new_compat_rewind _ 5 rfl (by decide) (by decide)
    ⟨rfl, by intro v hv; simp [Btp.baseEnv] at hv ⊢; omega, rfl, rfl⟩

/-- C3: with the version check enabled, a stored database version above the
supported one makes construction fail with a version error; a missing or
smaller stored version is migrated — the supported version is written — and
startup succeeds; an equal version passes with no version write. -/
theorem new_dbVersion_check (e : Btp.NewEnv)
    (hm1 : e.syncMode ≠ Btp.LightSync)
    (hm2 : Btp.syncModeIsValid e.syncMode = true)
    (hdb : e.openDbOk = true)
    (hge : e.genesisErr ≠ some Btp.GenesisErr.fatal)
    (hskip : e.skipBcVersionCheck = false)
    (hbc : e.newBlockChainOk = true)
    (hpm : e.newProtocolManagerOk = true) :
    (∀ v, e.bcVersion = some v → e.supportedDbVersion < v →
        Btp.New e = Except.error (Btp.NewErr.dbVersionTooNew v)) ∧
    (∀ v, e.bcVersion = some v → v < e.supportedDbVersion →
        Btp.New e = Except.ok
          (Btp.NewEvent.writeDatabaseVersion e.supportedDbVersion ::
            Btp.compatEvents e.genesisErr)) ∧
    (e.bcVersion = none →
        Btp.New e = Except.ok
          (Btp.NewEvent.writeDatabaseVersion e.supportedDbVersion ::
            Btp.compatEvents e.genesisErr)) ∧
    (∀ v, e.bcVersion = some v → v = e.supportedDbVersion →
        Btp.New e = Except.ok (Btp.compatEvents e.genesisErr)) := by
  refine ⟨?_, ?_, ?_, ?_⟩
  · intro v hv hlt
    have hvc : Btp.dbVersionCheck e.skipBcVersionCheck e.bcVersion e.supportedDbVersion
        = Except.error v := by simp [Btp.dbVersionCheck, hskip, hv, hlt]
    simp [Btp.New, hm1, hm2, hdb, hge, hvc]
  · intro v hv hlt
    have h1 : ¬ e.supportedDbVersion < v := by omega
    have hvc : Btp.dbVersionCheck e.skipBcVersionCheck e.bcVersion e.supportedDbVersion
        = Except.ok [Btp.NewEvent.writeDatabaseVersion e.supportedDbVersion] := by
      simp [Btp.dbVersionCheck, hskip, hv, h1, hlt]
    simpa using new_ok_form e hm1 hm2 hdb hge _ hvc hbc hpm
  · intro hv
    have hvc : Btp.dbVersionCheck e.skipBcVersionCheck e.bcVersion e.supportedDbVersion
        = Except.ok [Btp.NewEvent.writeDatabaseVersion e.supportedDbVersion] := by
      simp [Btp.dbVersionCheck, hskip, hv]
    simpa using new_ok_form e hm1 hm2 hdb hge _ hvc hbc hpm
  · intro v hv heq
    have h1 : ¬ e.supportedDbVersion < v := by omega
    have h2 : ¬ v < e.supportedDbVersion := by omega
    have hvc : Btp.dbVersionCheck e.skipBcVersionCheck e.bcVersion e.supportedDbVersion
        = Except.ok [] := by simp [Btp.dbVersionCheck, hskip, hv, h1, h2]
    simpa using new_ok_form e hm1 hm2 hdb hge _ hvc hbc hpm

/-- Witness for `new_dbVersion_check` at concrete environments: a too-new
stored version fails, an older stored version is upgraded. -/
theorem new_dbVersion_check_witness :
    Btp.New { Btp.baseEnv with bcVersion := some 9 }
        = Except.error (Btp.NewErr.dbVersionTooNew 9) ∧
    Btp.New { Btp.baseEnv with bcVersion := some 3 }
        = Except.ok [Btp.NewEvent.writeDatabaseVersion 7] := by
  constructor
  · exact (new_dbVersion_check { Btp.baseEnv with bcVersion := some 9 }
      (by decide) rfl rfl (by decide) rfl rfl rfl).1 9 rfl (by decide)
  · exact (new_dbVersion_check { Btp.baseEnv with bcVersion := some 3 }
      (by decide) rfl rfl (by decide) rfl rfl rfl).2.1 3 rfl (by decide)

/-- C4 counterexample: `light` is a recognized (valid) sync mode, yet
constructing the full-node service with it fails — `New` returns the
dedicated light-sync error even when every other input is well-formed — so
the claim that construction succeeds for every recognized sync-mode value is
false. -/
theorem new_light_rejected :
    Btp.syncModeIsValid Btp.LightSync = true ∧
    Btp.New { Btp.baseEnv with syncMode := Btp.LightSync }
      = Except.error Btp.NewErr.lightSyncMode := by
  exact ⟨rfl, rfl⟩

/-- C4 amended: the core recognizes exactly the sync modes full, fast and
light; with the remaining startup inputs well-formed, constructing the
full-node service succeeds for full and fast, fails with the dedicated
light-sync error for light (light sync is served by the light-client
service instead), and fails with the invalid-sync-mode error for every
unrecognized value. -/
theorem new_syncMode_spec (e : Btp.NewEnv)
    (hge : e.genesisErr ≠ some Btp.GenesisErr.fatal)
    (hside : Btp.newSideOk e) :
    (e.syncMode = Btp.FullSync ∨ e.syncMode = Btp.FastSync →
        ∃ evs, Btp.New e = Except.ok evs) ∧
    (e.syncMode = Btp.LightSync →
        Btp.New e = Except.error Btp.NewErr.lightSyncMode) ∧
    (Btp.syncModeIsValid e.syncMode = false →
        Btp.New e = Except.error Btp.NewErr.invalidSyncMode) := by
  obtain ⟨hdb, hv, hbc, hpm⟩ := hside
  refine ⟨?_, ?_, ?_⟩
  · intro hm
    have hm1 : e.syncMode ≠ Btp.LightSync := by
      rcases hm with h | h <;> rw [h] <;> decide
    have hm2 : Btp.syncModeIsValid e.syncMode = true := by
      rcases hm with h | h <;> rw [h] <;> rfl
    obtain ⟨evs, hvc⟩ :=
      dbVersionCheck_ok e.skipBcVersionCheck e.bcVersion e.supportedDbVersion hv
    exact ⟨_, new_ok_form e hm1 hm2 hdb hge evs hvc hbc hpm⟩
  · intro hm
    simp [Btp.New, hm]
  · intro hinv
    have hm1 : e.syncMode ≠ Btp.LightSync := by
      intro h
      rw [h] at hinv
      exact absurd hinv (by decide)
    simp [Btp.New, hm1, hinv]

/-- Witness for `new_syncMode_spec`: at the baseline full-sync environment,
construction succeeds. -/
theorem new_syncMode_spec_witness :
    ∃ evs, Btp.New Btp.baseEnv = Except.ok evs := by
  refine (new_syncMode_spec Btp.baseEnv (by decide)
    ⟨rfl, by intro v hv; simp [Btp.baseEnv] at hv ⊢; omega, rfl, rfl⟩).1 ?_
  exact Or.inl rfl

/-- C5 counterexample: in the shutdown sequence of the service `Stop`
mbtpod (without a LES server), the BlockChain is stopped strictly before
the protocol manager stops accepting peers and cancels sync, so the claimed
order — stop accepting peers, cancel sync, drain the TxPool journal, stop
the miner, and only then close the BlockChain — is false on the code. -/
theorem stop_order_claim_false :
    (Btp.Stop false).indexOf Btp.StopEvent.blockchainStop <
      (Btp.Stop false).indexOf Btp.StopEvent.protocolManagerStop ∧
    ¬ ((Btp.Stop false).indexOf Btp.StopEvent.protocolManagerStop <
        (Btp.Stop false).indexOf Btp.StopEvent.blockchainStop) := by
  decide

/-- C5 amended: on every shutdown of the node service, whbtper or not a LES
server is attached, the components are stopped in the source order: first
the bloom indexer, then the BlockChain (flushing dirty trie nodes), the
consensus engine, the protocol manager (stop accepting peers and cancel
sync), the optional LES server, the TxPool (draining its journal), the
miner and the event mux, and the chain database is closed last (followed
only by closing the shutdown channel). -/
theorem stop_sequence_spec : ∀ hasLesServer : Bool,
    (Btp.Stop hasLesServer).indexOf Btp.StopEvent.bloomIndexerClose = 0 ∧
    (Btp.Stop hasLesServer).indexOf Btp.StopEvent.blockchainStop <
      (Btp.Stop hasLesServer).indexOf Btp.StopEvent.engineClose ∧
    (Btp.Stop hasLesServer).indexOf Btp.StopEvent.engineClose <
      (Btp.Stop hasLesServer).indexOf Btp.StopEvent.protocolManagerStop ∧
    (Btp.Stop hasLesServer).indexOf Btp.StopEvent.protocolManagerStop <
      (Btp.Stop hasLesServer).indexOf Btp.StopEvent.txPoolStop ∧
    (Btp.Stop hasLesServer).indexOf Btp.StopEvent.txPoolStop <
      (Btp.Stop hasLesServer).indexOf Btp.StopEvent.minerStop ∧
    (Btp.Stop hasLesServer).indexOf Btp.StopEvent.minerStop <
      (Btp.Stop hasLesServer).indexOf Btp.StopEvent.eventMuxStop ∧
    (Btp.Stop hasLesServer).indexOf Btp.StopEvent.eventMuxStop <
      (Btp.Stop hasLesServer).indexOf Btp.StopEvent.chainDbClose ∧
    (Btp.Stop hasLesServer).getLast? = some Btp.StopEvent.shutdownChanClose := by
  intro hasLesServer
  cases hasLesServer <;> decide

/-- C6: in the API backend `Sbtpead` mbtpod, the downloader cancellation —
which cancels all in-flight sync requests — happens strictly before the
canonical chain is rewound to the requested block number. -/
theorem sbtpead_cancel_before_rewind (n : Nat) :
    ∃ i j, i < j ∧
      (Btp.Sbtpead n).get? i = some Btp.SbtpeadEvent.downloaderCancel ∧
      (Btp.Sbtpead n).get? j = some (Btp.SbtpeadEvent.blockchainSbtpead n) :=
  ⟨0, 1, by omega, rfl, rfl⟩

/-- C8: the public `ChainId` RPC mbtpod returns the configured chain id
when the EIP-155 fork is active at the current head number, and returns 0
when the head is before the EIP-155 activation block. -/
theorem chainId_spec (c : Btp.ChainConfig) (headNumber : Nat)
    (h : c.chainID < 2 ^ 64) :
    (Btp.IsEIP155 c headNumber = true →
        Btp.ChainId c headNumber = c.chainID) ∧
    (∀ b, c.eip155Block = some b → headNumber < b →
        Btp.ChainId c headNumber = 0) := by
  constructor
  · intro ha
    simp [Btp.ChainId, ha]
    omega
  · intro b hb hn
    have hf : Btp.IsEIP155 c headNumber = false := by
      simp [Btp.IsEIP155, hb]
      omega
    simp [Btp.ChainId, hf]

/-- Witness for `chainId_spec` at a concrete configuration: chain id 5 with
EIP-155 activating at block 10 — active at head 10, inactive at head 3. -/
theorem chainId_spec_witness :
    (5 : Nat) < 2 ^ 64 ∧
    Btp.ChainId ⟨5, some 10⟩ 10 = 5 ∧
    Btp.ChainId ⟨5, some 10⟩ 3 = 0 := by
  have h5 : (5 : Nat) < 2 ^ 64 := by norm_num
  exact ⟨h5, (chainId_spec ⟨5, some 10⟩ 10 h5).1 (by decide),
    (chainId_spec ⟨5, some 10⟩ 3 h5).2 10 rfl (by omega)⟩

/-- Helper: a number below `256 ^ k` has at most `k` big-endian bytes. -/
theorem beBytes_length_le : ∀ (k n : Nat), n < 256 ^ k → (Btp.beBytes n).length ≤ k := by
  intro k
  induction k with
  | zero =>
    intro n hn
    have h0 : n = 0 := by simpa using hn
    subst h0
    simp [Btp.beBytes]
  | succ k ih =>
    intro n hn
    by_cases h0 : n = 0
    · subst h0
      simp [Btp.beBytes]
    · rw [Btp.beBytes]
      simp only [dif_neg h0, List.length_append, List.length_cons, List.length_nil]
      have hdiv : n / 256 < 256 ^ k := by
        have hlt : n < 256 ^ k * 256 := by
          calc n < 256 ^ (k + 1) := hn
          _ = 256 ^ k * 256 := pow_succ 256 k
        exact (Nat.div_lt_iff_lt_mul (by norm_num)).mpr hlt
      have := ih (n / 256) hdiv
      omega

/-- Helper: the RLP encoding of a short byte string adds at most one header
byte. -/
theorem rlpEncodeBytes_length_le (bs : List Nat) (h : bs.length ≤ 55) :
    (Btp.rlpEncodeBytes bs).length ≤ 1 + bs.length := by
  unfold Btp.rlpEncodeBytes
  by_cases h1 : bs.length = 1 ∧ bs.headD 0 < 128
  · rw [if_pos h1]
    omega
  · rw [if_neg h1, if_pos h]
    simp only [List.length_cons]
    omega

/-- Helper: the RLP encoding of an integer below `256 ^ k` (with `k ≤ 55`)
takes at most `1 + k` bytes. -/
theorem rlpEncodeUint_length_le (n k : Nat) (hk : k ≤ 55) (hn : n < 256 ^ k) :
    (Btp.rlpEncodeUint n).length ≤ 1 + k := by
  have hb := beBytes_length_le k n hn
  have := rlpEncodeBytes_length_le (Btp.beBytes n) (by omega)
  unfold Btp.rlpEncodeUint
  omega

/-- Helper: RLP list framing of a short payload adds exactly one byte. -/
theorem rlpEncodeListPayload_length (payload : List Nat) (h : payload.length ≤ 55) :
    (Btp.rlpEncodeListPayload payload).length = 1 + payload.length := by
  unfold Btp.rlpEncodeListPayload
  rw [if_pos h]
  simp only [List.length_cons]
  omega

/-- Helper: for a version word below `2 ^ 24` and runtime-version and OS
strings of at most 8 bytes each, the default miner extra-data stays within
the 32-byte extra-data cap. -/
theorem defaultExtraData_length_le (versionWord : Nat) (goVersion goos : List Nat)
    (h1 : versionWord < 2 ^ 24) (h2 : goVersion.length ≤ 8) (h3 : goos.length ≤ 8) :
    (Btp.defaultExtraData versionWord goVersion goos).length ≤ Btp.MaximumExtraDataSize := by
  have hvw : versionWord < 256 ^ 3 := by norm_num at h1 ⊢; omega
  have hu : (Btp.rlpEncodeUint versionWord).length ≤ 4 :=
    rlpEncodeUint_length_le versionWord 3 (by norm_num) hvw
  have hg : (Btp.rlpEncodeBytes Btp.gbtpClientName).length = 5 := by
    simp [Btp.rlpEncodeBytes, Btp.gbtpClientName]
  have hgv := rlpEncodeBytes_length_le goVersion (by omega)
  have hos := rlpEncodeBytes_length_le goos (by omega)
  have hpayload :
      (Btp.rlpEncodeUint versionWord ++ Btp.rlpEncodeBytes Btp.gbtpClientName ++
        Btp.rlpEncodeBytes goVersion ++ Btp.rlpEncodeBytes goos).length ≤ 27 := by
    simp only [List.length_append]
    omega
  unfold Btp.defaultExtraData
  rw [rlpEncodeListPayload_length _ (by omega)]
  simp [Btp.MaximumExtraDataSize]
  omega

/-- C7: `makeExtraData` always returns miner extra-data within the
configured cap; an input longer than the cap is replaced by empty extra
data; an empty input is replaced by the default version/client RLP encoding,
itself within the cap (for the build's version word below `2^24` and
runtime-version/OS strings of at most 8 bytes). -/
theorem makeExtraData_spec (versionWord : Nat) (goVersion goos extra : List Nat)
    (h1 : versionWord < 2 ^ 24) (h2 : goVersion.length ≤ 8) (h3 : goos.length ≤ 8) :
    (Btp.makeExtraData versionWord goVersion goos extra).length ≤ Btp.MaximumExtraDataSize ∧
    (Btp.MaximumExtraDataSize < extra.length →
        Btp.makeExtraData versionWord goVersion goos extra = []) ∧
    (extra = [] →
        Btp.makeExtraData versionWord goVersion goos extra =
          Btp.defaultExtraData versionWord goVersion goos ∧
        (Btp.defaultExtraData versionWord goVersion goos).length ≤
          Btp.MaximumExtraDataSize) := by
  have hd := defaultExtraData_length_le versionWord goVersion goos h1 h2 h3
  refine ⟨?_, ?_, ?_⟩
  · simp only [Btp.makeExtraData]
    by_cases hc : Btp.MaximumExtraDataSize <
        (if extra.length = 0 then Btp.defaultExtraData versionWord goVersion goos
         else extra).length
    · rw [if_pos hc]
      simp
    · rw [if_neg hc]
      exact Nat.not_lt.mp hc
  · intro hl
    have h0 : ¬ (extra.length = 0) := by omega
    simp only [Btp.makeExtraData]
    rw [if_neg h0, if_pos hl]
  · intro he
    subst he
    have hstep : Btp.makeExtraData versionWord goVersion goos [] =
        if Btp.MaximumExtraDataSize <
            (Btp.defaultExtraData versionWord goVersion goos).length
        then [] else Btp.defaultExtraData versionWord goVersion goos := rfl
    rw [hstep, if_neg (by omega)]
    exact ⟨rfl, hd⟩

/-- Witness for `makeExtraData_spec` at the concrete build environment:
version word `1<<16 | 9<<8 | 5`, Go runtime "go1.12", OS "linux", empty
input extra-data. -/
theorem makeExtraData_spec_witness :
    (67845 : Nat) < 2 ^ 24 ∧
    ([103, 111, 49, 46, 49, 50] : List Nat).length ≤ 8 ∧
    ([108, 105, 110, 117, 120] : List Nat).length ≤ 8 ∧
    ((Btp.makeExtraData 67845 [103, 111, 49, 46, 49, 50] [108, 105, 110, 117, 120] []).length
        ≤ Btp.MaximumExtraDataSize ∧
      (Btp.MaximumExtraDataSize <
          ([] : List Nat).length →
        Btp.makeExtraData 67845 [103, 111, 49, 46, 49, 50] [108, 105, 110, 117, 120] [] = []) ∧
      (([] : List Nat) = [] →
        Btp.makeExtraData 67845 [103, 111, 49, 46, 49, 50] [108, 105, 110, 117, 120] [] =
          Btp.defaultExtraData 67845 [103, 111, 49, 46, 49, 50] [108, 105, 110, 117, 120] ∧
        (Btp.defaultExtraData 67845 [103, 111, 49, 46, 49, 50] [108, 105, 110, 117, 120]).length
          ≤ Btp.MaximumExtraDataSize)) :=
  ⟨by norm_num, by decide, by decide,
    makeExtraData_spec 67845 [103, 111, 49, 46, 49, 50] [108, 105, 110, 117, 120] []
      (by norm_num) (by decide) (by decide)⟩

/-- Helper: the iterator over keys at least `start` is a sublist of the
trie entries, so it inherits strict key ordering and has no duplicates. -/
theorem iterFrom_nodup (start : Nat) (st : List (Nat × Nat))
    (hs : List.Pairwise (fun p q => p.1 < q.1) st) :
    (Btp.iterFrom start st).Nodup := by
  have hpw : List.Pairwise (fun p q : Nat × Nat => p.1 < q.1) (Btp.iterFrom start st) :=
    hs.sublist (List.filter_sublist st)
  exact hpw.imp (fun hab => by intro hEq; rw [hEq] at hab; exact lt_irrefl _ hab)

/-- C9: `storageRangeAt` returns at most `maxResult` storage entries
starting from the given key, and its `nextKey` field is non-nil exactly
when the trie holds a further entry at or after the start key that is not
part of the returned range (for a storage trie with strictly increasing
in-order keys). -/
theorem storageRangeAt_spec (st : List (Nat × Nat)) (start maxResult : Nat)
    (hs : List.Pairwise (fun p q => p.1 < q.1) st) :
    (Btp.storageRangeAt st start maxResult).storage.length ≤ maxResult ∧
    ((Btp.storageRangeAt st start maxResult).nextKey.isSome = true ↔
      ∃ p ∈ st, start ≤ p.1 ∧ p ∉ (Btp.storageRangeAt st start maxResult).storage) := by
  constructor
  · have : ((Btp.iterFrom start st).take maxResult).length ≤ maxResult := by
      rw [List.length_take]
      omega
    simp only [Btp.storageRangeAt]
    exact this
  · cases hdrop : (Btp.iterFrom start st).drop maxResult with
    | nil =>
      have htake : (Btp.iterFrom start st).take maxResult = Btp.iterFrom start st := by
        have hsplit := List.take_append_drop maxResult (Btp.iterFrom start st)
        rw [hdrop] at hsplit
        simpa using hsplit
      simp only [Btp.storageRangeAt, hdrop, List.head?_nil, Option.map_none', Option.isSome_none]
      constructor
      · intro h
        exact absurd h (by simp)
      · rintro ⟨p, hp, hstart, hnot⟩
        refine absurd ?_ hnot
        rw [htake]
        exact List.mem_filter.mpr ⟨hp, by simpa using hstart⟩
    | cons q rest =>
      have hq_drop : q ∈ (Btp.iterFrom start st).drop maxResult := by
        rw [hdrop]
        exact List.mem_cons_self q rest
      have hq_it : q ∈ Btp.iterFrom start st := List.mem_of_mem_drop hq_drop
      obtain ⟨hq_st, hq_start⟩ := List.mem_filter.mp hq_it
      have hnd2 : ((Btp.iterFrom start st).take maxResult ++
          (Btp.iterFrom start st).drop maxResult).Nodup := by
        rw [List.take_append_drop]
        exact iterFrom_nodup start st hs
      have hdisj := List.disjoint_of_nodup_append hnd2
      simp only [Btp.storageRangeAt, hdrop, List.head?_cons, Option.map_some', Option.isSome_some,
        true_iff]
      exact ⟨q, hq_st, by simpa using hq_start, fun hq_take => hdisj hq_take hq_drop⟩

/-- Witness for `storageRangeAt_spec` at a concrete three-entry storage
trie, start key 2 and bound 1. -/
theorem storageRangeAt_spec_witness :
    List.Pairwise (fun p q : Nat × Nat => p.1 < q.1) [(1, 10), (3, 30), (5, 50)] ∧
    ((Btp.storageRangeAt [(1, 10), (3, 30), (5, 50)] 2 1).storage.length ≤ 1 ∧
      ((Btp.storageRangeAt [(1, 10), (3, 30), (5, 50)] 2 1).nextKey.isSome = true ↔
        ∃ p ∈ [(1, 10), (3, 30), (5, 50)], 2 ≤ p.1 ∧
          p ∉ (Btp.storageRangeAt [(1, 10), (3, 30), (5, 50)] 2 1).storage)) :=
  ⟨by decide, storageRangeAt_spec [(1, 10), (3, 30), (5, 50)] 2 1 (by decide)⟩

/-- Helper: characterization of the insert loop at an arbitrary running
index — it commits exactly the longest valid prefix, returns the running
index advanced by that prefix length, and reports the validation error of
the first failing block, every earlier block having validated cleanly. -/
theorem insertChainAux_spec {β γ : Type} (validate : List β → β → Option γ) :
    ∀ (blocks chain : List β) (idx : Nat),
      ∃ k,
        (Btp.insertChainAux validate chain blocks idx).1 = chain ++ blocks.take k ∧
        (Btp.insertChainAux validate chain blocks idx).2.1 = idx + k ∧
        k ≤ blocks.length ∧
        ((Btp.insertChainAux validate chain blocks idx).2.2 = none → k = blocks.length) ∧
        (∀ err, (Btp.insertChainAux validate chain blocks idx).2.2 = some err →
            ∃ b, blocks.get? k = some b ∧
              validate (chain ++ blocks.take k) b = some err) ∧
        (∀ j bj, j < k → blocks.get? j = some bj →
            validate (chain ++ blocks.take j) bj = none) := by
  intro blocks
  induction blocks with
  | nil =>
    intro chain idx
    refine ⟨0, by simp [Btp.insertChainAux], by simp [Btp.insertChainAux], by simp, ?_, ?_, ?_⟩
    · intro _
      rfl
    · intro err herr
      exact absurd herr (by simp [Btp.insertChainAux])
    · intro j bj hj
      omega
  | cons b rest ih =>
    intro chain idx
    cases hv : validate chain b with
    | some err =>
      have hG : Btp.insertChainAux validate chain (b :: rest) idx = (chain, idx, some err) := by
        simp only [Btp.insertChainAux, hv]
      refine ⟨0, ?_, ?_, by simp, ?_, ?_, ?_⟩
      · rw [hG]
        simp
      · rw [hG]
        simp
      · intro hnone
        rw [hG] at hnone
        exact absurd hnone (by simp)
      · intro err2 herr
        rw [hG] at herr
        simp only [Option.some.injEq] at herr
        subst herr
        exact ⟨b, rfl, by simpa using hv⟩
      · intro j bj hj
        omega
    | none =>
      obtain ⟨k, h1, h2, h3, h4, h5, h6⟩ := ih (chain ++ [b]) (idx + 1)
      have hG : Btp.insertChainAux validate chain (b :: rest) idx =
          Btp.insertChainAux validate (chain ++ [b]) rest (idx + 1) := by
        simp only [Btp.insertChainAux, hv]
      refine ⟨k + 1, ?_, ?_, by simpa using h3, ?_, ?_, ?_⟩
      · rw [hG, h1, List.take_succ_cons]
        simp
      · rw [hG, h2]
        omega
      · intro hnone
        rw [hG] at hnone
        have := h4 hnone
        simp [this]
      · intro err2 herr
        rw [hG] at herr
        obtain ⟨b2, hb2, hval⟩ := h5 err2 herr
        refine ⟨b2, by simpa using hb2, ?_⟩
        rw [List.take_succ_cons]
        have heq : chain ++ (b :: rest.take k) = (chain ++ [b]) ++ rest.take k := by simp
        rw [heq]
        exact hval
      · intro j bj hj hbj
        cases j with
        | zero =>
          simp only [List.get?_cons_zero, Option.some.injEq] at hbj
          subst hbj
          simpa using hv
        | succ j =>
          have hj2 : j < k := by omega
          have hbj2 : rest.get? j = some bj := by simpa using hbj
          have hrec := h6 j bj hj2 hbj2
          rw [List.take_succ_cons]
          have heq : chain ++ (b :: rest.take j) = (chain ++ [b]) ++ rest.take j := by simp
          rw [heq]
          exact hrec

/-- C1: `InsertChain` validates the given blocks in order on top of the
existing chain; if no block fails, every block is committed; otherwise it
returns the index of the first failing block together with its error, with
exactly the blocks before that index committed and all of them having
validated cleanly. -/
theorem insertChain_spec {β γ : Type} (validate : List β → β → Option γ)
    (chain blocks : List β) :
    ((Btp.InsertChain validate chain blocks).2.2 = none →
        (Btp.InsertChain validate chain blocks).1 = chain ++ blocks ∧
        (Btp.InsertChain validate chain blocks).2.1 = blocks.length) ∧
    (∀ err, (Btp.InsertChain validate chain blocks).2.2 = some err →
        (Btp.InsertChain validate chain blocks).2.1 < blocks.length ∧
        (Btp.InsertChain validate chain blocks).1 =
          chain ++ blocks.take (Btp.InsertChain validate chain blocks).2.1 ∧
        (∃ b, blocks.get? (Btp.InsertChain validate chain blocks).2.1 = some b ∧
            validate (Btp.InsertChain validate chain blocks).1 b = some err) ∧
        ∀ j bj, j < (Btp.InsertChain validate chain blocks).2.1 →
          blocks.get? j = some bj →
          validate (chain ++ blocks.take j) bj = none) := by
  obtain ⟨k, h1, h2, h3, h4, h5, h6⟩ := insertChainAux_spec validate blocks chain 0
  have hI : Btp.InsertChain validate chain blocks
      = Btp.insertChainAux validate chain blocks 0 := rfl
  rw [hI]
  constructor
  · intro hnone
    have hk := h4 hnone
    constructor
    · rw [h1, hk, List.take_length]
    · rw [h2, hk]
      omega
  · intro err herr
    obtain ⟨b, hb, hval⟩ := h5 err herr
    have hklt : k < blocks.length := by
      rcases List.get?_eq_some.mp hb with ⟨hlt, _⟩
      exact hlt
    have hidx : (Btp.insertChainAux validate chain blocks 0).2.1 = k := by
      rw [h2]
      omega
    refine ⟨?_, ?_, ⟨b, ?_, ?_⟩, ?_⟩
    · rw [hidx]
      exact hklt
    · rw [hidx, h1]
    · rw [hidx]
      exact hb
    · rw [h1]
      exact hval
    · intro j bj hj hbj
      rw [hidx] at hj
      exact h6 j bj hj hbj

/-- C10: for a parsed ABI and a non-empty mbtpod name, `Pack` fails when
the name is not among the ABI mbtpods; when it is, the mbtpod identifier
is exactly the first 4 bytes of the keccak256 hash of the canonical
signature string `name(type1,type2,...)`, and the packed call data is that
identifier followed by the packed arguments. -/
theorem abiPack_spec {α : Type} (keccak : List Nat → List Nat)
    (packArgs : List String → List α → Except String (List Nat))
    (abi : Abi.ABIModel) (name : String) (args : List α)
    (hname : name ≠ "")
    (hk : ∀ bs, (keccak bs).length = 32) :
    (abi.mbtpods.lookup name = none →
        ∃ e, Abi.Pack keccak packArgs abi name args = Except.error e) ∧
    (∀ m, abi.mbtpods.lookup name = some m →
        (Abi.Mbtpod.idBytes keccak m).length = 4 ∧
        Abi.Mbtpod.idBytes keccak m =
          (keccak (Abi.strBytes
            (m.name ++ "(" ++ String.intercalate "," m.inputs ++ ")"))).take 4 ∧
        ∀ packed, packArgs m.inputs args = Except.ok packed →
          Abi.Pack keccak packArgs abi name args =
            Except.ok (Abi.Mbtpod.idBytes keccak m ++ packed)) := by
  constructor
  · intro hnone
    refine ⟨"mbtpod " ++ name ++ " not found", ?_⟩
    simp [Abi.Pack, hname, hnone]
  · intro m hm
    refine ⟨?_, rfl, ?_⟩
    · unfold Abi.Mbtpod.idBytes
      rw [List.length_take, hk]
      decide
    · intro packed hp
      simp [Abi.Pack, hname, hm, hp]

/-- Witness for `abiPack_spec`: a one-mbtpod ABI packed at a trivial hash
function and argument packer. -/
theorem abiPack_spec_witness :
    Abi.Pack (fun _ => List.replicate 32 0) (fun _ _ => Except.ok ([9] : List Nat))
        ⟨[], [("transfer", ⟨"transfer", ["address", "uint256"]⟩)]⟩ "transfer" ([] : List Nat)
      = Except.ok (Abi.Mbtpod.idBytes (fun _ => List.replicate 32 0)
          ⟨"transfer", ["address", "uint256"]⟩ ++ [9]) :=
  ((abiPack_spec (fun _ => List.replicate 32 0) (fun _ _ => Except.ok [9])
      ⟨[], [("transfer", ⟨"transfer", ["address", "uint256"]⟩)]⟩ "transfer" []
      (by decide) (fun bs => by simp)).2
      ⟨"transfer", ["address", "uint256"]⟩ rfl).2.2 [9] rfl
